import Mathlib

/-!
Shallow embedding of the repository content-selection and extraction engine
from `src/backend/app/services/ai_service.py`, together with theorems settling
the frozen claims about it.

Python strings are embedded as lists of characters (`PyStr`); Python string
comparison is code-point lexicographic, embedded via `Char.toNat`.  The
filesystem seen by one invocation is embedded as the list of entries produced
by `Path.rglob("*")`: each entry carries its path components relative to the
repository root, whether it is a file or a directory, its `stat` size and its
content.
-/

/-- Embedding of a Python `str` as a list of characters. -/
abbrev PyStr := List Char

/-- Convert a Lean string literal to the `PyStr` embedding. -/
def pystr (s : String) : PyStr := s.data

/-- Decimal rendering of a natural number, as Python `str(n)` / f-string interpolation. -/
def natStr (n : Nat) : PyStr := (Nat.repr n).data

/-- Python code-point comparison `s < t` on strings (lexicographic on `ord`). -/
def strLt : PyStr → PyStr → Bool
  | _, [] => false
  | [], _ :: _ => true
  | a :: s, b :: t => a.toNat < b.toNat || (a.toNat == b.toNat && strLt s t)

/-- Python `s <= t` on strings: the negation of `t < s` for the total code-point order. -/
def strLe (s t : PyStr) : Bool := !(strLt t s)

/-- Insert an element into a sorted list, after all elements `le`-below-or-equal
to it (the placement a stable sort gives equal elements). -/
def stableInsert (le : α → α → Bool) (a : α) : List α → List α
  | [] => [a]
  | b :: bs => if le b a then b :: stableInsert le a bs else a :: b :: bs

/-- Embedding of Python `list.sort` (with an optional `key`, pre-applied in the
comparator): a stable ascending sort. -/
def pySort (le : α → α → Bool) (l : List α) : List α :=
  l.foldl (fun acc a => stableInsert le a acc) []

/-- Python `str.lower()` restricted to ASCII letters (all names compared by the
program are ASCII, where Python lowercasing agrees with the ASCII map). -/
def pyLowerChar (c : Char) : Char :=
  if 65 ≤ c.toNat && c.toNat ≤ 90 then Char.ofNat (c.toNat + 32) else c

/-- Lowercase a whole embedded string. -/
def pyLower (s : PyStr) : PyStr := s.map pyLowerChar

/-- The whitespace characters removed by Python `str.strip()` (ASCII range). -/
def isPySpace (c : Char) : Bool :=
  c == ' ' || c == '\t' || c == '\n' || c == '\x0d' || c == Char.ofNat 11 || c == Char.ofNat 12

/-- Python `str.strip()`: drop leading and trailing whitespace. -/
def pyStrip (s : PyStr) : PyStr :=
  ((s.dropWhile isPySpace).reverse.dropWhile isPySpace).reverse

/-- Python `content.split('\n')`. -/
def splitLines : PyStr → List PyStr
  | [] => [[]]
  | c :: rest =>
    if c = '\n' then [] :: splitLines rest
    else
      match splitLines rest with
      | [] => [[c]]
      | l :: ls => (c :: l) :: ls

/-- Python `'\n'.join(lines)`. -/
def joinLines : List PyStr → PyStr
  | [] => []
  | [l] => l
  | l :: l' :: ls => l ++ '\n' :: joinLines (l' :: ls)

/-- Python substring test `sub in s`. -/
def isSubstr (sub : PyStr) : PyStr → Bool
  | [] => sub.isPrefixOf []
  | c :: rest => sub.isPrefixOf (c :: rest) || isSubstr sub rest

/-- Index of the last occurrence of a character, as Python `str.rfind`. -/
def rfindIdx (c : Char) : PyStr → Option Nat
  | [] => none
  | a :: rest =>
    match rfindIdx c rest with
    | some i => some (i + 1)
    | none => if a == c then some 0 else none

/-- `pathlib.PurePath.suffix` of a file name: the final `'.'`-extension, empty
when the name has no dot, starts with its only dot, or ends in a dot. -/
def pySuffix (name : PyStr) : PyStr :=
  match rfindIdx '.' name with
  | some i => if 0 < i && i < name.length - 1 then name.drop i else []
  | none => []

/-! ### Constants of `ai_service.py` -/

/-- `CODE_STRUCTURE_EXTRACTION_THRESHOLD = 3000`. -/
def CODE_STRUCTURE_EXTRACTION_THRESHOLD : Nat := 3000

/-- `MIN_EXTRACTED_CONTENT = 100`. -/
def MIN_EXTRACTED_CONTENT : Nat := 100

/-- `TRUNCATE_LINES_HEAD = 25`. -/
def TRUNCATE_LINES_HEAD : Nat := 25

/-- `TRUNCATE_LINES_TAIL = 25`. -/
def TRUNCATE_LINES_TAIL : Nat := 25

/-- `SKIP_DIRECTORIES` from `ai_service.py`. -/
def SKIP_DIRECTORIES : List PyStr :=
  [pystr ".git", pystr "node_modules", pystr "__pycache__", pystr "venv", pystr ".venv",
   pystr "dist", pystr "build", pystr "target", pystr "bin", pystr "obj"]

/-! ### The structural extractor `_extract_code_structure` -/

/-- Keep-predicate for `.py` lines: stripped line starts with one of the
Python structural keyword prefixes. -/
def pyKeep (line : PyStr) : Bool :=
  let s := pyStrip line
  (pystr "import ").isPrefixOf s || (pystr "from ").isPrefixOf s ||
  (pystr "class ").isPrefixOf s || (pystr "def ").isPrefixOf s ||
  (pystr "@").isPrefixOf s

/-- Keep-predicate for `.js`/`.jsx`/`.ts`/`.tsx` lines. -/
def jsKeep (line : PyStr) : Bool :=
  let s := pyStrip line
  (pystr "import ").isPrefixOf s || (pystr "export ").isPrefixOf s ||
  (pystr "class ").isPrefixOf s || (pystr "function ").isPrefixOf s ||
  (pystr "const ").isPrefixOf s || (pystr "let ").isPrefixOf s ||
  (pystr "var ").isPrefixOf s || (pystr "interface ").isPrefixOf s ||
  (pystr "type ").isPrefixOf s

/-- Keep-predicate for `.java`/`.cs`/`.go`/`.rs` lines. -/
def javaKeep (line : PyStr) : Bool :=
  let s := pyStrip line
  (pystr "import ").isPrefixOf s || (pystr "package ").isPrefixOf s ||
  (pystr "class ").isPrefixOf s || (pystr "interface ").isPrefixOf s ||
  (pystr "struct ").isPrefixOf s || (pystr "enum ").isPrefixOf s ||
  (pystr "func ").isPrefixOf s || (pystr "pub fn").isPrefixOf s ||
  (pystr "impl ").isPrefixOf s

/-- Shared tail of `_extract_code_structure`: the `if not extracted_lines` /
`MIN_EXTRACTED_CONTENT` fallbacks and the trailing marker. -/
def finishExtraction (content : PyStr) (extracted_lines : List PyStr) : PyStr :=
  if extracted_lines.isEmpty then
    content.take CODE_STRUCTURE_EXTRACTION_THRESHOLD ++ pystr "\n... (truncated for brevity)"
  else
    let result := joinLines extracted_lines
    if result.length < MIN_EXTRACTED_CONTENT then
      content.take CODE_STRUCTURE_EXTRACTION_THRESHOLD ++ pystr "\n... (truncated for brevity)"
    else
      result ++ pystr "\n... (full implementation details omitted for brevity)"

/-- Embedding of `_extract_code_structure(content, file_extension)`. -/
def _extract_code_structure (content : PyStr) (file_extension : PyStr) : PyStr :=
  let lines := splitLines content
  if content.length < CODE_STRUCTURE_EXTRACTION_THRESHOLD then content
  else if file_extension = pystr ".py" then
    finishExtraction content (lines.filter pyKeep)
  else if file_extension ∈ [pystr ".js", pystr ".jsx", pystr ".ts", pystr ".tsx"] then
    finishExtraction content (lines.filter jsKeep)
  else if file_extension ∈ [pystr ".java", pystr ".cs", pystr ".go", pystr ".rs"] then
    finishExtraction content (lines.filter javaKeep)
  else if TRUNCATE_LINES_HEAD + TRUNCATE_LINES_TAIL < lines.length then
    finishExtraction content
      (lines.take TRUNCATE_LINES_HEAD ++
        [pystr "...", pystr "# Content truncated for brevity", pystr "..."] ++
        lines.drop (lines.length - TRUNCATE_LINES_TAIL))
  else content

/-! ### Filesystem model

One invocation sees the repository as `Path(target_dir)` plus the stream of
entries yielded by `repo_path.rglob("*")`.  An entry records its path
components relative to the root, whether it is a file or directory, its
`stat().st_size` and its readable content. -/

/-- Kind of a filesystem entry. -/
inductive FSKind where
  | file
  | dir
deriving DecidableEq, Repr

/-- One entry yielded by `rglob("*")`: root-relative path components, kind,
`stat` size and content (meaningful for files). -/
structure FSEntry where
  relParts : List PyStr
  kind : FSKind
  size : Nat
  content : PyStr
deriving DecidableEq, Repr

/-- The filesystem as seen from one `target_dir`: whether the root exists, the
components of the root path, and the `rglob` entry list (in traversal order). -/
structure FS where
  rootExists : Bool
  rootParts : List PyStr
  entries : List FSEntry
deriving DecidableEq, Repr

/-- Components joined by `/`, as `str()` of a relative `PurePosixPath`. -/
def joinParts (ps : List PyStr) : PyStr := List.intercalate (pystr "/") ps

/-- `str()` of the absolute root path (`target_dir`). -/
def rootStr (fs : FS) : PyStr := '/' :: joinParts fs.rootParts

/-- `item.parts` of an entry's absolute path, minus the leading `/` anchor
(which can never equal a skip-directory name). -/
def absParts (fs : FS) (relParts : List PyStr) : List PyStr := fs.rootParts ++ relParts

/-- `str()` of an entry's absolute path. -/
def absStr (fs : FS) (relParts : List PyStr) : PyStr :=
  rootStr fs ++ '/' :: joinParts relParts

/-- `item.name`: the final path component. -/
def entryName (relParts : List PyStr) : PyStr := relParts.getLastD []

/-! ### The Directory Surveyor `get_repository_structure` -/

/-- The dictionary returned by `get_repository_structure`. -/
structure RepoStructure where
  root : PyStr
  files : List PyStr
  directories : List PyStr
deriving DecidableEq, Repr

/-- The Surveyor's only exclusion rule: `".git" in item.parts`. -/
def surveyorExcludes (parts : List PyStr) : Bool := parts.contains (pystr ".git")

/-- Embedding of `get_repository_structure(target_dir, max_depth)`. -/
def get_repository_structure (fs : FS) (max_depth : Nat) : RepoStructure :=
  if fs.rootExists = false then ⟨rootStr fs, [], []⟩
  else
    let recorded := fs.entries.filter fun e =>
      !surveyorExcludes (absParts fs e.relParts) && e.relParts.length ≤ max_depth
    let files := (recorded.filter fun e => e.kind = FSKind.file).map fun e => joinParts e.relParts
    let dirs := (recorded.filter fun e => e.kind = FSKind.dir).map fun e => joinParts e.relParts
    ⟨rootStr fs, pySort strLe files, pySort strLe dirs⟩

/-! ### The Content Selector `extract_repository_content` -/

/-- The `code_extensions` set. -/
def code_extensions : List PyStr :=
  [pystr ".py", pystr ".js", pystr ".jsx", pystr ".ts", pystr ".tsx", pystr ".java",
   pystr ".cpp", pystr ".c", pystr ".h", pystr ".cs", pystr ".go", pystr ".rs",
   pystr ".rb", pystr ".php", pystr ".swift", pystr ".kt", pystr ".scala",
   pystr ".md", pystr ".txt", pystr ".json", pystr ".yml", pystr ".yaml",
   pystr ".toml", pystr ".xml"]

/-- The `skip_files` set. -/
def skip_files : List PyStr :=
  [pystr "package-lock.json", pystr "yarn.lock", pystr "poetry.lock", pystr "Pipfile.lock",
   pystr ".gitignore", pystr ".dockerignore", pystr "LICENSE", pystr "CHANGELOG.md"]

/-- `max_total_size = 500000` (the 500KB total content limit). -/
def max_total_size : Nat := 500000

/-- The Selector's skip-directories rule:
`any(skip in item.parts for skip in SKIP_DIRECTORIES)`. -/
def selectorExcludesDir (parts : List PyStr) : Bool :=
  SKIP_DIRECTORIES.any fun skip => parts.contains skip

/-- A surviving candidate: the `(item, file_size)` pair collected into `code_files`. -/
structure Cand where
  relParts : List PyStr
  size : Nat
  content : PyStr
deriving DecidableEq, Repr

/-- The candidate-collection loop of `extract_repository_content`: walk the
`rglob` entries, apply the skip-directory, skip-file, extension and
per-file-size filters. -/
def collectCandidates (fs : FS) (max_file_size : Nat) : List Cand :=
  fs.entries.filterMap fun e =>
    if selectorExcludesDir (absParts fs e.relParts) then none
    else if skip_files.contains (entryName e.relParts) then none
    else
      match e.kind with
      | FSKind.dir => none
      | FSKind.file =>
        if code_extensions.contains (pySuffix (entryName e.relParts)) && e.size ≤ max_file_size
        then some ⟨e.relParts, e.size, e.content⟩
        else none

/-- Embedding of the `file_priority` sort key. -/
def file_priority (fs : FS) (c : Cand) : Nat × Nat × PyStr :=
  let name := pyLower (entryName c.relParts)
  let path_str := pyLower (absStr fs c.relParts)
  if isSubstr (pystr "readme") name then (0, 0, name)
  else if name ∈ [pystr "setup.py", pystr "pyproject.toml", pystr "package.json",
                  pystr "cargo.toml", pystr "pom.xml", pystr "build.gradle"] then (1, 0, name)
  else if name ∈ [pystr "main.py", pystr "index.js", pystr "index.ts", pystr "app.py",
                  pystr "__init__.py", pystr "main.go", pystr "main.rs"] then (2, 0, name)
  else if isSubstr (pystr "src") path_str || isSubstr (pystr "app") path_str then
    (3, c.size, name)
  else if pySuffix (entryName c.relParts) ∈ [pystr ".md", pystr ".txt"] then (4, c.size, name)
  else if pySuffix (entryName c.relParts) ∈ [pystr ".json", pystr ".yml", pystr ".yaml",
                                             pystr ".toml", pystr ".xml"] then (5, c.size, name)
  else if isSubstr (pystr "test") path_str || isSubstr (pystr "spec") path_str then
    (6, c.size, name)
  else (7, c.size, name)

/-- Python `<` on the `(tier, size_or_zero, lowercase_name)` key tuples
(lexicographic tuple comparison): strictly lower tuple sorts strictly first. -/
def keyLt (k1 k2 : Nat × Nat × PyStr) : Bool :=
  k1.1 < k2.1 ||
  (k1.1 == k2.1 && (k1.2.1 < k2.2.1 || (k1.2.1 == k2.2.1 && strLt k1.2.2 k2.2.2)))

/-- Python `<=` on the key tuples, the placement relation realised by
`list.sort(key=file_priority)`: strictly lower, or equal. -/
def keyLe (k1 k2 : Nat × Nat × PyStr) : Bool :=
  keyLt k1 k2 || k1 == k2

/-- `code_files.sort(key=file_priority)`: stable sort by the priority key. -/
def sortedCandidates (fs : FS) (max_file_size : Nat) : List Cand :=
  pySort (fun c1 c2 => keyLe (file_priority fs c1) (file_priority fs c2))
    (collectCandidates fs max_file_size)

/-- The greedy selection loop: scan candidates in sorted order, stop at
`max_files` selected, skip (and keep scanning) any candidate that would push
the running byte total over `max_total`.  Returns `(selected_files, total_size)`. -/
def greedyGo (max_files max_total : Nat) :
    List Cand → List Cand → Nat → List Cand × Nat
  | [], selected, total => (selected, total)
  | c :: rest, selected, total =>
    if max_files ≤ selected.length then (selected, total)
    else if max_total < total + c.size then greedyGo max_files max_total rest selected total
    else greedyGo max_files max_total rest (selected ++ [c]) (total + c.size)

/-- The `(selected_files, total_size)` state after the greedy loop. -/
def selectResult (fs : FS) (max_files max_file_size : Nat) : List Cand × Nat :=
  greedyGo max_files max_total_size (sortedCandidates fs max_file_size) [] 0

/-- The `selected_files` list of `extract_repository_content`. -/
def selected_files (fs : FS) (max_files max_file_size : Nat) : List Cand :=
  (selectResult fs max_files max_file_size).1

/-- The documentation/config extensions embedded verbatim (not structurally extracted). -/
def doc_suffixes : List PyStr :=
  [pystr ".md", pystr ".txt", pystr ".json", pystr ".yml", pystr ".yaml",
   pystr ".toml", pystr ".xml"]

/-- One `### File:` section of the output, for a selected candidate: the
header line, then the fenced block with either verbatim (doc/config) or
structurally extracted (code) content. -/
def fileSection (max_file_size : Nat) (c : Cand) : PyStr :=
  let name := entryName c.relParts
  let suffix := pySuffix name
  let file_content := c.content.take max_file_size
  pystr "\n### File: " ++ joinParts c.relParts ++ pystr "\n" ++
  (if suffix ∈ doc_suffixes || isSubstr (pystr "readme") (pyLower name) then
    pystr "```" ++ suffix.drop 1 ++ pystr "\n" ++ file_content ++
    (if max_file_size ≤ file_content.length then pystr "\n... (truncated)" else []) ++
    pystr "\n```\n"
  else
    pystr "```" ++ suffix.drop 1 ++ pystr "\n" ++
    _extract_code_structure file_content suffix ++ pystr "\n```\n")

/-- The header of the output: the title, the `Directory Structure` section
with the root path and the first 20 directories of the depth-2 survey. -/
def structureHeader (fs : FS) : PyStr :=
  let structure_ := get_repository_structure fs 2
  pystr "# Repository Structure and Content\n" ++
  pystr "\n## Directory Structure\n" ++
  pystr "Root: " ++ rootStr fs ++ pystr "\n" ++
  (if structure_.directories.isEmpty then []
   else
    pystr "\nDirectories (" ++ natStr structure_.directories.length ++ pystr "):\n" ++
    (structure_.directories.take 20).flatMap fun d => pystr "  - " ++ d ++ pystr "\n")

/-- The `## Code Files` header line, from the selected count and total size. -/
def codeFilesHeader (count kb : Nat) : PyStr :=
  pystr "\n## Code Files (" ++ natStr count ++ pystr " files included, ~" ++
  natStr kb ++ pystr "KB total)\n"

/-- Embedding of `extract_repository_content(target_dir, max_files, max_file_size)`. -/
def extract_repository_content (fs : FS) (max_files : Nat := 50)
    (max_file_size : Nat := 10000) : PyStr :=
  if fs.rootExists = false then pystr "Repository directory not found."
  else
    let st := selectResult fs max_files max_file_size
    structureHeader fs ++
    codeFilesHeader st.1.length (st.2 / 1024) ++
    st.1.flatMap (fileSection max_file_size)

/-! ### Helper lemmas -/

/-- The greedy loop only ever extends its accumulator in order: its selected
list is a subsequence of `accumulator ++ remaining candidates`. -/
theorem greedyGo_sublist (max_files max_total : Nat) :
    ∀ (cands selected : List Cand) (total : Nat),
      (greedyGo max_files max_total cands selected total).1.Sublist (selected ++ cands) := by
  intro cands
  induction cands with
  | nil => intro selected total; simp [greedyGo]
  | cons c rest ih =>
    intro selected total
    unfold greedyGo
    split
    · exact List.sublist_append_left selected (c :: rest)
    · split
      · exact (ih selected total).trans
          (List.Sublist.append_left (List.sublist_cons_self c rest) selected)
      · have h := ih (selected ++ [c]) (total + c.size)
        simpa [List.append_assoc] using h

/-- Any candidate surviving collection has `file_size <= max_file_size`. -/
theorem candidates_size_le {fs : FS} {max_file_size : Nat} {c : Cand}
    (hc : c ∈ collectCandidates fs max_file_size) : c.size ≤ max_file_size := by
  simp only [collectCandidates, List.mem_filterMap] at hc
  obtain ⟨e, -, he⟩ := hc
  obtain ⟨rel, kind, sz, cont⟩ := e
  split at he
  · simp at he
  · split at he
    · simp at he
    · cases kind
      · simp only at he
        split at he
        · rename_i hcond
          obtain ⟨-, h2⟩ := (Bool.and_eq_true _ _).mp hcond
          cases Option.some.inj he
          simpa using h2
        · simp at he
      · simp at he

/-- Membership in `stableInsert`. -/
theorem mem_stableInsert (le : α → α → Bool) (a x : α) :
    ∀ l : List α, x ∈ stableInsert le a l ↔ x = a ∨ x ∈ l := by
  intro l
  induction l with
  | nil => simp [stableInsert]
  | cons b bs ih =>
    unfold stableInsert
    split <;> simp only [List.mem_cons, ih] <;> tauto

/-- Membership in `pySort`. -/
theorem mem_pySort (le : α → α → Bool) (x : α) (l : List α) :
    x ∈ pySort le l ↔ x ∈ l := by
  suffices h : ∀ acc, x ∈ l.foldl (fun acc a => stableInsert le a acc) acc ↔ x ∈ acc ∨ x ∈ l by
    simpa [pySort] using h []
  induction l with
  | nil => intro acc; simp
  | cons a as ih =>
    intro acc
    simp only [List.foldl_cons, ih, mem_stableInsert, List.mem_cons]
    tauto

/-- Every selected file is one of the sorted candidates. -/
theorem selected_mem_candidates {fs : FS} {max_files max_file_size : Nat} {c : Cand}
    (hc : c ∈ selected_files fs max_files max_file_size) :
    c ∈ collectCandidates fs max_file_size := by
  have h1 : c ∈ sortedCandidates fs max_file_size := by
    have := greedyGo_sublist max_files max_total_size (sortedCandidates fs max_file_size) [] 0
    exact this.subset (by simpa [selected_files, selectResult] using hc)
  exact (mem_pySort _ _ _).mp h1

/-! ### Claim theorems -/

/-- C7 (error_handling): if the root path does not exist,
`extract_repository_content` returns exactly `"Repository directory not
found."`, with no survey, no candidate collection and no file sections. -/
theorem missing_root_sentinel (fs : FS) (max_files max_file_size : Nat)
    (h : fs.rootExists = false) :
    extract_repository_content fs max_files max_file_size =
      pystr "Repository directory not found." := by
  unfold extract_repository_content
  rw [if_pos h]

/-- Witness for `missing_root_sentinel` at a concrete nonexistent root whose
entry list is nonempty: the sentinel comes back untouched. -/
theorem missing_root_sentinel_witness :
    (FS.mk false [pystr "no", pystr "such", pystr "path"]
      [⟨[pystr "x.py"], FSKind.file, 3, pystr "abc"⟩] : FS).rootExists = false ∧
    extract_repository_content
      (FS.mk false [pystr "no", pystr "such", pystr "path"]
        [⟨[pystr "x.py"], FSKind.file, 3, pystr "abc"⟩]) 50 10000 =
      pystr "Repository directory not found." :=
  ⟨rfl, missing_root_sentinel _ 50 10000 rfl⟩

/-- C8 (algebraic_relational): contents shorter than the 3000-byte threshold
pass through `_extract_code_structure` unchanged, for every extension. -/
theorem small_content_identity (content file_extension : PyStr)
    (h : content.length < 3000) :
    _extract_code_structure content file_extension = content := by
  unfold _extract_code_structure
  rw [if_pos (by simpa [CODE_STRUCTURE_EXTRACTION_THRESHOLD] using h)]

/-- Witness for `small_content_identity`: a 500-byte Python file returns
unchanged. -/
theorem small_content_identity_witness :
    (List.replicate 500 'x').length < 3000 ∧
    _extract_code_structure (List.replicate 500 'x') (pystr ".py") =
      List.replicate 500 'x' :=
  ⟨by simp only [List.length_replicate]; norm_num,
   small_content_identity _ _ (by simp only [List.length_replicate]; norm_num)⟩

/-- C10 (security_hyperproperties): on an unchanged tree with identical
parameters, two runs of `extract_repository_content` produce byte-identical
output (the embedded function is deterministic). -/
theorem extract_deterministic (fs : FS) (max_files max_file_size : Nat) :
    extract_repository_content fs max_files max_file_size =
      extract_repository_content fs max_files max_file_size := rfl

/-- C5 (invariants): every file whose raw `stat` size exceeds `max_file_size`
is excluded from candidacy (all candidates, and hence all selected files,
satisfy the per-file cap). -/
theorem per_file_cap (fs : FS) (max_files max_file_size : Nat) :
    ((collectCandidates fs max_file_size).all fun c =>
      decide (c.size ≤ max_file_size)) = true ∧
    ((selected_files fs max_files max_file_size).all fun c =>
      decide (c.size ≤ max_file_size)) = true := by
  constructor
  · rw [List.all_eq_true]
    intro c hc
    exact decide_eq_true (candidates_size_le hc)
  · rw [List.all_eq_true]
    intro c hc
    exact decide_eq_true (candidates_size_le (selected_mem_candidates hc))

/-- `strLt` is irreflexive. -/
theorem strLt_irrefl : ∀ s : PyStr, strLt s s = false
  | [] => rfl
  | a :: s => by simp [strLt, strLt_irrefl s]

/-- `strLt` is asymmetric. -/
theorem strLt_asymm : ∀ s t : PyStr, strLt s t = true → strLt t s = true → False
  | [], t, h1, h2 => by cases t <;> simp [strLt] at h1 h2
  | a :: s, [], h1, _ => by simp [strLt] at h1
  | a :: s, b :: t, h1, h2 => by
    simp only [strLt, Bool.or_eq_true, Bool.and_eq_true, beq_iff_eq,
      decide_eq_true_eq] at h1 h2
    rcases h1 with h1 | ⟨e1, h1⟩ <;> rcases h2 with h2 | ⟨e2, h2⟩
    · omega
    · omega
    · omega
    · exact strLt_asymm s t h1 h2

/-- Splitting a strict comparison across a middle string. -/
theorem strLt_split : ∀ c a b : PyStr, strLt c a = true →
    strLt c b = true ∨ strLt b a = true
  | [], a, b, h => by
    cases a with
    | nil => simp [strLt] at h
    | cons x xs =>
      cases b with
      | nil => right; simp [strLt]
      | cons y ys => left; simp [strLt]
  | x :: c, a, b, h => by
    cases a with
    | nil => simp [strLt] at h
    | cons y ys =>
      cases b with
      | nil => right; simp [strLt]
      | cons z zs =>
        simp only [strLt, Bool.or_eq_true, Bool.and_eq_true, beq_iff_eq,
          decide_eq_true_eq] at h ⊢
        rcases h with h | ⟨e, h⟩
        · rcases Nat.lt_or_ge x.toNat z.toNat with h2 | h2
          · left; left; exact h2
          · rcases Nat.eq_or_lt_of_le h2 with h3 | h3
            · right; left; omega
            · right; left; omega
        · rcases Nat.lt_or_ge x.toNat z.toNat with h2 | h2
          · left; left; exact h2
          · rcases Nat.eq_or_lt_of_le h2 with h3 | h3
            · rcases strLt_split c ys zs h with h4 | h4
              · left; right; exact ⟨by omega, h4⟩
              · right; right; exact ⟨by omega, h4⟩
            · right; left; omega

/-- `strLe` is total. -/
theorem strLe_total (s t : PyStr) : strLe s t = true ∨ strLe t s = true := by
  by_cases h1 : strLt t s = true
  · right
    simp only [strLe, Bool.not_eq_true']
    cases h2 : strLt s t
    · rfl
    · exact (strLt_asymm s t h2 h1).elim
  · left
    simp only [strLe, Bool.not_eq_true']
    simpa using h1

/-- `strLe` is transitive. -/
theorem strLe_trans {a b c : PyStr} (h1 : strLe a b = true) (h2 : strLe b c = true) :
    strLe a c = true := by
  simp only [strLe, Bool.not_eq_true'] at h1 h2 ⊢
  cases h3 : strLt c a
  · rfl
  · rcases strLt_split c a b h3 with h4 | h4
    · simp [h4] at h2
    · simp [h4] at h1

/-- Inserting into a sorted list keeps it sorted, for a total transitive
comparator. -/
theorem pairwise_stableInsert (le : α → α → Bool)
    (total : ∀ a b, le a b = true ∨ le b a = true)
    (trans : ∀ {a b c}, le a b = true → le b c = true → le a c = true)
    (a : α) :
    ∀ l : List α, l.Pairwise (fun x y => le x y = true) →
      (stableInsert le a l).Pairwise (fun x y => le x y = true) := by
  intro l
  induction l with
  | nil => intro _; simp [stableInsert]
  | cons b bs ih =>
    intro hp
    rw [List.pairwise_cons] at hp
    obtain ⟨hb, hbs⟩ := hp
    unfold stableInsert
    split
    · rename_i hle
      rw [List.pairwise_cons]
      refine ⟨fun y hy => ?_, ih hbs⟩
      rcases (mem_stableInsert le a y bs).mp hy with rfl | hy
      · exact hle
      · exact hb y hy
    · rename_i hle
      have hab : le a b = true := (total a b).resolve_right (by simpa using hle)
      rw [List.pairwise_cons]
      refine ⟨fun y hy => ?_, List.pairwise_cons.mpr ⟨hb, hbs⟩⟩
      rcases List.mem_cons.mp hy with rfl | hy
      · exact hab
      · exact trans hab (hb y hy)

/-- `pySort` output is sorted, for a total transitive comparator. -/
theorem pairwise_pySort (le : α → α → Bool)
    (total : ∀ a b, le a b = true ∨ le b a = true)
    (trans : ∀ {a b c}, le a b = true → le b c = true → le a c = true)
    (l : List α) :
    (pySort le l).Pairwise (fun x y => le x y = true) := by
  suffices h : ∀ acc : List α, acc.Pairwise (fun x y => le x y = true) →
      (l.foldl (fun acc a => stableInsert le a acc) acc).Pairwise
        (fun x y => le x y = true) by
    exact h [] (by simp)
  induction l with
  | nil => intro acc h; simpa using h
  | cons a as ih =>
    intro acc h
    exact ih _ (pairwise_stableInsert le total trans a acc h)

/-- C9 (functional_correctness): the Surveyor's files and directories lists are
each sorted ascending in the Python string order (code-point lexicographic). -/
theorem surveyor_sorted (fs : FS) (max_depth : Nat) :
    (get_repository_structure fs max_depth).files.Pairwise
      (fun a b => strLe a b = true) ∧
    (get_repository_structure fs max_depth).directories.Pairwise
      (fun a b => strLe a b = true) := by
  unfold get_repository_structure
  split
  · constructor <;> simp
  · exact ⟨pairwise_pySort strLe strLe_total (fun h1 h2 => strLe_trans h1 h2) _,
      pairwise_pySort strLe strLe_total (fun h1 h2 => strLe_trans h1 h2) _⟩

/-- A repository with one `.py` file inside `node_modules`. -/
def fsC2 : FS :=
  ⟨true, [pystr "repo"],
   [⟨[pystr "node_modules"], FSKind.dir, 0, []⟩,
    ⟨[pystr "node_modules", pystr "x.py"], FSKind.file, 3, pystr "abc"⟩]⟩

/-- C2 counterexample: the Surveyor and the Selector do not apply the same
exclusion rules.  `node_modules/x.py` is excluded from candidacy by the
Selector's skip-directories rule, yet the Surveyor (which only excludes
`.git`) lists it in `files`. -/
theorem exclusion_rules_differ_cex :
    pystr "node_modules/x.py" ∈ (get_repository_structure fsC2 3).files ∧
    collectCandidates fsC2 10000 = [] ∧
    selectorExcludesDir
      (absParts fsC2 [pystr "node_modules", pystr "x.py"]) = true ∧
    surveyorExcludes
      (absParts fsC2 [pystr "node_modules", pystr "x.py"]) = false := by
  decide

/-- C2 amended: the exclusion rules agree in one direction only — every path
the Surveyor excludes (`.git` as a component) is also excluded by the
Selector's skip-directories rule, since `.git` is in `SKIP_DIRECTORIES`; the
converse fails (see the counterexample). -/
theorem exclusion_rules_subset (parts : List PyStr)
    (h : surveyorExcludes parts = true) : selectorExcludesDir parts = true := by
  simp only [selectorExcludesDir, List.any_eq_true]
  exact ⟨pystr ".git", by simp [SKIP_DIRECTORIES], h⟩

/-- Witness for `exclusion_rules_subset` at a concrete `.git` path. -/
theorem exclusion_rules_subset_witness :
    surveyorExcludes [pystr "repo", pystr ".git", pystr "HEAD"] = true ∧
    selectorExcludesDir [pystr "repo", pystr ".git", pystr "HEAD"] = true :=
  ⟨by decide, exclusion_rules_subset _ (by decide)⟩

/-- `keyLt` is irreflexive. -/
theorem keyLt_irrefl (k : Nat × Nat × PyStr) : keyLt k k = false := by
  obtain ⟨t, s, n⟩ := k
  simp [keyLt, strLt_irrefl]

/-- `keyLt` is asymmetric. -/
theorem keyLt_asymm {k1 k2 : Nat × Nat × PyStr}
    (h1 : keyLt k1 k2 = true) (h2 : keyLt k2 k1 = true) : False := by
  obtain ⟨t1, s1, n1⟩ := k1
  obtain ⟨t2, s2, n2⟩ := k2
  simp only [keyLt, Bool.or_eq_true, Bool.and_eq_true, beq_iff_eq,
    decide_eq_true_eq] at h1 h2
  rcases h1 with h1 | ⟨e1, h1 | ⟨f1, h1⟩⟩ <;>
    rcases h2 with h2 | ⟨e2, h2 | ⟨f2, h2⟩⟩ <;> try omega
  exact strLt_asymm n1 n2 h1 h2

/-- A strictly lower key is accepted and its converse rejected by the sort
comparator `keyLe`. -/
theorem keyLt_keyLe {k1 k2 : Nat × Nat × PyStr} (h : keyLt k1 k2 = true) :
    keyLe k1 k2 = true ∧ keyLe k2 k1 = false := by
  constructor
  · simp [keyLe, h]
  · simp only [keyLe, Bool.or_eq_false_iff]
    constructor
    · cases h2 : keyLt k2 k1
      · rfl
      · exact (keyLt_asymm h h2).elim
    · cases h2 : k2 == k1
      · rfl
      · exfalso
        rw [show k2 = k1 from eq_of_beq h2] at h
        simp [keyLt_irrefl] at h

/-- The larger of the two readme candidates. -/
def candBigReadme : Cand := ⟨[pystr "a-readme.md"], 100, pystr "L"⟩

/-- The smaller of the two readme candidates. -/
def candSmallReadme : Cand := ⟨[pystr "b-readme.md"], 5, pystr "s"⟩

/-- A repository holding exactly the two readme candidates. -/
def fsC3 : FS :=
  ⟨true, [pystr "repo"],
   [⟨[pystr "b-readme.md"], FSKind.file, 5, pystr "s"⟩,
    ⟨[pystr "a-readme.md"], FSKind.file, 100, pystr "L"⟩]⟩

/-- C3 counterexample: in tier 0 the size tie-break does not apply.  Both
readme files get tier 0 with a zeroed size slot, so the 100-byte
`a-readme.md` sorts strictly before the 5-byte `b-readme.md`, contradicting
"the candidate with the smaller byte size sorts first" for tier 0. -/
theorem priority_tiebreak_cex :
    (file_priority fsC3 candBigReadme).1 = 0 ∧
    (file_priority fsC3 candSmallReadme).1 = 0 ∧
    candSmallReadme.size < candBigReadme.size ∧
    keyLt (file_priority fsC3 candSmallReadme)
      (file_priority fsC3 candBigReadme) = false ∧
    keyLt (file_priority fsC3 candBigReadme)
      (file_priority fsC3 candSmallReadme) = true ∧
    sortedCandidates fsC3 10000 = [candBigReadme, candSmallReadme] := by
  decide

/-- In tiers 3–7, the key's middle slot is the candidate's byte size. -/
theorem file_priority_size_slot_high (fs : FS) (c : Cand)
    (h : 3 ≤ (file_priority fs c).1) : (file_priority fs c).2.1 = c.size := by
  simp only [file_priority] at h ⊢
  split_ifs at h ⊢ <;> simp_all

/-- In tiers 0–2, the key's middle slot is `0`, not the candidate's size. -/
theorem file_priority_size_slot_low (fs : FS) (c : Cand)
    (h : (file_priority fs c).1 ≤ 2) : (file_priority fs c).2.1 = 0 := by
  simp only [file_priority] at h ⊢
  split_ifs at h ⊢ <;> simp_all

/-- The key's last slot is the lowercased file name. -/
theorem file_priority_name_slot (fs : FS) (c : Cand) :
    (file_priority fs c).2.2 = pyLower (entryName c.relParts) := by
  simp only [file_priority]
  split_ifs <;> rfl

/-- C3 amended: ties within a tier are broken by the key's middle slot then by
the lowercase filename, where the middle slot is the byte size only in tiers
3–7; in tiers 0–2 it is the constant `0`, so equal-tier candidates there are
ordered by lowercase name alone, regardless of size. -/
theorem priority_tiebreak_amended (fs : FS) (c1 c2 : Cand) :
    ((file_priority fs c1).1 = (file_priority fs c2).1 →
      (file_priority fs c1).2.1 < (file_priority fs c2).2.1 →
      keyLt (file_priority fs c1) (file_priority fs c2) = true) ∧
    ((file_priority fs c1).1 = (file_priority fs c2).1 →
      (file_priority fs c1).2.1 = (file_priority fs c2).2.1 →
      strLt (file_priority fs c1).2.2 (file_priority fs c2).2.2 = true →
      keyLt (file_priority fs c1) (file_priority fs c2) = true) ∧
    (3 ≤ (file_priority fs c1).1 → (file_priority fs c1).2.1 = c1.size) ∧
    ((file_priority fs c1).1 ≤ 2 → (file_priority fs c1).2.1 = 0) ∧
    (file_priority fs c1).2.2 = pyLower (entryName c1.relParts) ∧
    (keyLt (file_priority fs c1) (file_priority fs c2) = true →
      keyLe (file_priority fs c1) (file_priority fs c2) = true ∧
      keyLe (file_priority fs c2) (file_priority fs c1) = false) := by
  refine ⟨?_, ?_, file_priority_size_slot_high fs c1,
    file_priority_size_slot_low fs c1, file_priority_name_slot fs c1,
    fun h => keyLt_keyLe h⟩
  · intro h1 h2
    rcases hfp1 : file_priority fs c1 with ⟨t1, s1, n1⟩
    rcases hfp2 : file_priority fs c2 with ⟨t2, s2, n2⟩
    rw [hfp1, hfp2] at h1 h2
    simp only at h1 h2
    simp [keyLt, h1, h2]
  · intro h1 h2 h3
    rcases hfp1 : file_priority fs c1 with ⟨t1, s1, n1⟩
    rcases hfp2 : file_priority fs c2 with ⟨t2, s2, n2⟩
    rw [hfp1, hfp2] at h1 h2 h3
    simp only at h1 h2 h3
    simp [keyLt, h1, h2, h3]

/-- Witness for `priority_tiebreak_amended`: two tier-3 candidates under a
`src` root, ordered by size; and the tier-0 candidates of the counterexample
repository, showing the zero slot. -/
theorem priority_tiebreak_amended_witness :
    ((file_priority fsC3 candBigReadme).1 = (file_priority fsC3 candSmallReadme).1 ∧
      (file_priority fsC3 candBigReadme).2.1 = (file_priority fsC3 candSmallReadme).2.1 ∧
      strLt (file_priority fsC3 candBigReadme).2.2
        (file_priority fsC3 candSmallReadme).2.2 = true ∧
      keyLt (file_priority fsC3 candBigReadme)
        (file_priority fsC3 candSmallReadme) = true) ∧
    ((file_priority fsC3 candBigReadme).1 ≤ 2 ∧
      (file_priority fsC3 candBigReadme).2.1 = 0) :=
  ⟨⟨by decide, by decide, by decide,
    (priority_tiebreak_amended fsC3 candBigReadme candSmallReadme).2.1
      (by decide) (by decide) (by decide)⟩,
   by decide,
   (priority_tiebreak_amended fsC3 candBigReadme candSmallReadme).2.2.2.1
     (by decide)⟩

/-- The running `total_size` of a selection: the sum of candidate sizes. -/
def sizeSum (l : List Cand) : Nat := (l.map fun c => c.size).sum

/-- The greedy loop keeps the selection length at most `max_files` (when the
accumulator starts within the bound). -/
theorem greedyGo_length (max_files max_total : Nat) :
    ∀ (cands selected : List Cand) (total : Nat), selected.length ≤ max_files →
      (greedyGo max_files max_total cands selected total).1.length ≤ max_files := by
  intro cands
  induction cands with
  | nil => intro selected total h; simpa [greedyGo] using h
  | cons c rest ih =>
    intro selected total h
    unfold greedyGo
    split
    · simpa using h
    · split
      · exact ih selected total h
      · rename_i hlen _
        exact ih (selected ++ [c]) (total + c.size)
          (by simp; omega)

/-- The greedy loop maintains `total_size` as the sum of selected sizes and
never lets it exceed the budget. -/
theorem greedyGo_budget (max_files max_total : Nat) :
    ∀ (cands selected : List Cand) (total : Nat),
      sizeSum selected = total → total ≤ max_total →
      sizeSum (greedyGo max_files max_total cands selected total).1 =
        (greedyGo max_files max_total cands selected total).2 ∧
      (greedyGo max_files max_total cands selected total).2 ≤ max_total := by
  intro cands
  induction cands with
  | nil => intro selected total h1 h2; simpa [greedyGo] using ⟨h1, h2⟩
  | cons c rest ih =>
    intro selected total h1 h2
    unfold greedyGo
    split
    · simpa using ⟨h1, h2⟩
    · split
      · exact ih selected total h1 h2
      · rename_i _ hfit
        exact ih (selected ++ [c]) (total + c.size)
          (by simp [sizeSum] at h1 ⊢; omega) (by omega)

/-- C1 (functional_correctness): the greedy selection takes candidates in
sorted order (the selection is a subsequence of the sorted candidate list),
stops once `max_files` are selected, skips over-budget candidates without
stopping the scan, and the sum of selected sizes never exceeds the 500000-byte
budget. -/
theorem greedy_selection_budget (fs : FS) (max_files max_file_size : Nat) :
    (selected_files fs max_files max_file_size).Sublist
      (sortedCandidates fs max_file_size) ∧
    (selected_files fs max_files max_file_size).length ≤ max_files ∧
    sizeSum (selected_files fs max_files max_file_size) ≤ max_total_size ∧
    (∀ (c : Cand) (rest selected : List Cand) (total : Nat),
      selected.length < max_files → max_total_size < total + c.size →
      greedyGo max_files max_total_size (c :: rest) selected total =
        greedyGo max_files max_total_size rest selected total) := by
  refine ⟨?_, ?_, ?_, ?_⟩
  · simpa using
      greedyGo_sublist max_files max_total_size (sortedCandidates fs max_file_size) [] 0
  · exact greedyGo_length max_files max_total_size _ [] 0 (by simp)
  · have h := greedyGo_budget max_files max_total_size
      (sortedCandidates fs max_file_size) [] 0 (by simp [sizeSum]) (by simp)
    rw [selected_files, selectResult]
    omega
  · intro c rest selected total hlen hskip
    conv_lhs => rw [greedyGo]
    rw [if_neg (by omega), if_pos hskip]

/-- A one-file repository used to instantiate the greedy-selection theorem. -/
def fsW1 : FS := ⟨true, [pystr "w"], [⟨[pystr "m.py"], FSKind.file, 4, pystr "pass"⟩]⟩

/-- Witness for `greedy_selection_budget`: the budget bound at a concrete
repository, and the skip-and-continue law at a concrete over-budget candidate. -/
theorem greedy_selection_budget_witness :
    sizeSum (selected_files fsW1 50 10000) ≤ max_total_size ∧
    (([] : List Cand).length < 50 ∧ max_total_size < 0 + 600000) ∧
    greedyGo 50 max_total_size
      [⟨[pystr "big.py"], 600000, []⟩, ⟨[pystr "s.py"], 3, pystr "x"⟩] [] 0 =
      greedyGo 50 max_total_size [⟨[pystr "s.py"], 3, pystr "x"⟩] [] 0 :=
  ⟨(greedy_selection_budget fsW1 50 10000).2.2.1,
   ⟨by decide, by decide⟩,
   (greedy_selection_budget fsW1 50 10000).2.2.2
     ⟨[pystr "big.py"], 600000, []⟩ [⟨[pystr "s.py"], 3, pystr "x"⟩] [] 0
     (by decide) (by decide)⟩

/-- C4 (functional_correctness): the skip-directory test runs on every
component of the absolute path, the root's own components included.  If any
component of `target_dir` is in `SKIP_DIRECTORIES` (for example a repository
under a parent directory named `build`), every entry is skipped: no candidate
survives, nothing is selected, and the output is just the structure header
and a zero-file `## Code Files` header, with no `### File:` section. -/
theorem root_skip_component_empty (fs : FS) (max_files max_file_size : Nat)
    (hex : fs.rootExists = true)
    (h : (SKIP_DIRECTORIES.any fun skip => fs.rootParts.contains skip) = true) :
    collectCandidates fs max_file_size = [] ∧
    selected_files fs max_files max_file_size = [] ∧
    extract_repository_content fs max_files max_file_size =
      structureHeader fs ++ codeFilesHeader 0 0 := by
  have hcand : collectCandidates fs max_file_size = [] := by
    rw [collectCandidates, List.filterMap_eq_nil_iff]
    intro e he
    have hsel : selectorExcludesDir (absParts fs e.relParts) = true := by
      rw [selectorExcludesDir, List.any_eq_true]
      rcases List.any_eq_true.mp h with ⟨s, hs, hc⟩
      refine ⟨s, hs, ?_⟩
      exact List.elem_eq_true_of_mem
        (List.mem_append_left e.relParts (List.elem_iff.mp hc))
    simp [hsel]
  have hsort : sortedCandidates fs max_file_size = [] := by
    rw [sortedCandidates, hcand]; rfl
  have hres : selectResult fs max_files max_file_size = ([], 0) := by
    rw [selectResult, hsort]; rfl
  have hsel2 : selected_files fs max_files max_file_size = [] := by
    rw [selected_files, hres]
  refine ⟨hcand, hsel2, ?_⟩
  rw [extract_repository_content, if_neg (by simp [hex])]
  simp only [hres]
  simp

/-- A repository under a parent directory named `build`, holding an otherwise
perfectly eligible Python file. -/
def fsW4 : FS :=
  ⟨true, [pystr "home", pystr "build", pystr "repo"],
   [⟨[pystr "good.py"], FSKind.file, 10, pystr "import os called"⟩]⟩

/-- Witness for `root_skip_component_empty`: under `/home/build/repo` the
eligible `good.py` is never selected. -/
theorem root_skip_component_empty_witness :
    (fsW4.rootExists = true ∧
      (SKIP_DIRECTORIES.any fun skip => fsW4.rootParts.contains skip) = true) ∧
    collectCandidates fsW4 10000 = [] ∧
    selected_files fsW4 50 10000 = [] ∧
    extract_repository_content fsW4 50 10000 =
      structureHeader fsW4 ++ codeFilesHeader 0 0 :=
  ⟨⟨rfl, by decide⟩,
   root_skip_component_empty fsW4 50 10000 rfl (by decide)⟩

/-- `split('\n')` never returns an empty list. -/
theorem splitLines_ne_nil : ∀ s : PyStr, splitLines s ≠ []
  | [] => by simp [splitLines]
  | c :: rest => by
    rw [splitLines]
    split
    · simp
    · cases hsp : splitLines rest with
      | nil => exact absurd hsp (splitLines_ne_nil rest)
      | cons l ls => simp [hsp]

/-- Prepending a character to the first line commutes with `joinLines`. -/
theorem joinLines_cons_cons (c : Char) (l : PyStr) (ls : List PyStr) :
    joinLines ((c :: l) :: ls) = c :: joinLines (l :: ls) := by
  cases ls <;> rfl

/-- `'\n'.join` is a left inverse of `split('\n')`. -/
theorem joinLines_splitLines : ∀ s : PyStr, joinLines (splitLines s) = s
  | [] => rfl
  | c :: rest => by
    rw [splitLines]
    split
    · rename_i hc
      subst hc
      cases hsp : splitLines rest with
      | nil => exact absurd hsp (splitLines_ne_nil rest)
      | cons l ls =>
        have ih := joinLines_splitLines rest
        rw [hsp] at ih
        show joinLines ([] :: l :: ls) = '\n' :: rest
        rw [show joinLines ([] :: l :: ls) = [] ++ '\n' :: joinLines (l :: ls) from rfl]
        simp [ih]
    · cases hsp : splitLines rest with
      | nil => exact absurd hsp (splitLines_ne_nil rest)
      | cons l ls =>
        rw [joinLines_cons_cons]
        have ih := joinLines_splitLines rest
        rw [hsp] at ih
        rw [ih]

/-- Length of a `'\n'.join`: the lines' total length plus one separator per
gap. -/
theorem length_joinLines : ∀ ls : List PyStr, ls ≠ [] →
    (joinLines ls).length + 1 = (ls.map List.length).sum + ls.length
  | [], h => absurd rfl h
  | [l], _ => by simp [joinLines]
  | l :: l' :: ls, _ => by
    have ih := length_joinLines (l' :: ls) (by simp)
    rw [joinLines]
    simp only [List.length_append, List.length_cons, List.map_cons, List.sum_cons] at ih ⊢
    omega

/-- Filtering lines can only shrink the total length. -/
theorem sum_lengths_filter_le (p : PyStr → Bool) :
    ∀ ls : List PyStr, ((ls.filter p).map List.length).sum ≤ (ls.map List.length).sum := by
  intro ls
  induction ls with
  | nil => simp
  | cons l ls ih =>
    rw [List.filter_cons]
    split
    · simp only [List.map_cons, List.sum_cons]
      omega
    · simp only [List.map_cons, List.sum_cons]
      omega

/-- C6 amended: for a 5000-byte `.py` content of 406 lines whose keyword
filter keeps exactly 6 structural lines, *provided the kept lines join to at
least the 100-byte `MIN_EXTRACTED_CONTENT` floor*, the extractor returns
exactly those kept lines plus the fixed trailing marker, and the output is
strictly shorter than the input.  (Without the 100-byte proviso the claim
fails: the extractor falls back to raw 3000-byte truncation.) -/
theorem large_extraction_amended (content : PyStr)
    (hlen : content.length = 5000)
    (hcount : (splitLines content).length = 406)
    (hkept : ((splitLines content).filter pyKeep).length = 6)
    (hbig : 100 ≤ (joinLines ((splitLines content).filter pyKeep)).length) :
    _extract_code_structure content (pystr ".py") =
      joinLines ((splitLines content).filter pyKeep) ++
        pystr "\n... (full implementation details omitted for brevity)" ∧
    (_extract_code_structure content (pystr ".py")).length < content.length := by
  have hne : (splitLines content).filter pyKeep ≠ [] := by
    intro h
    rw [h] at hkept
    simp at hkept
  have h1 : ¬ content.length < CODE_STRUCTURE_EXTRACTION_THRESHOLD := by
    rw [hlen, CODE_STRUCTURE_EXTRACTION_THRESHOLD]
    omega
  have h2 : ¬ ((splitLines content).filter pyKeep).isEmpty = true := by
    simpa [List.isEmpty_iff] using hne
  have h3 : ¬ (joinLines ((splitLines content).filter pyKeep)).length <
      MIN_EXTRACTED_CONTENT := by
    rw [MIN_EXTRACTED_CONTENT]
    omega
  have hout : _extract_code_structure content (pystr ".py") =
      joinLines ((splitLines content).filter pyKeep) ++
        pystr "\n... (full implementation details omitted for brevity)" := by
    simp only [_extract_code_structure, finishExtraction]
    rw [if_neg h1, if_neg h2, if_neg h3]
    simp
  refine ⟨hout, ?_⟩
  rw [hout]
  have hj := length_joinLines ((splitLines content).filter pyKeep) hne
  rw [hkept] at hj
  have hs := length_joinLines (splitLines content) (splitLines_ne_nil content)
  rw [hcount, joinLines_splitLines] at hs
  have hfle := sum_lengths_filter_le pyKeep (splitLines content)
  have hmark :
      (pystr "\n... (full implementation details omitted for brevity)").length = 54 := by
    decide
  rw [List.length_append, hmark, hlen]
  omega

/-- A newline-free string splits into a single line. -/
theorem splitLines_no_newline : ∀ s : PyStr, '\n' ∉ s → splitLines s = [s]
  | [], _ => rfl
  | c :: rest, h => by
    have hc : ¬ c = '\n' := fun hc => h (by simp [hc])
    have hr : '\n' ∉ rest := fun hr => h (by simp [hr])
    rw [splitLines, if_neg hc, splitLines_no_newline rest hr]

/-- Splitting at an explicit first newline peels off the first line. -/
theorem splitLines_append_newline : ∀ s t : PyStr, '\n' ∉ s →
    splitLines (s ++ '\n' :: t) = s :: splitLines t
  | [], t, _ => by simp [splitLines]
  | c :: s, t, h => by
    have hc : ¬ c = '\n' := fun hc => h (by simp [hc])
    have hs : '\n' ∉ s := fun hr => h (by simp [hr])
    rw [List.cons_append, splitLines, if_neg hc, splitLines_append_newline s t hs]

/-- `split('\n')` is a right inverse of `'\n'.join` on newline-free lines. -/
theorem splitLines_joinLines : ∀ ls : List PyStr, ls ≠ [] →
    (∀ l ∈ ls, '\n' ∉ l) → splitLines (joinLines ls) = ls
  | [], h, _ => absurd rfl h
  | [l], _, hl => by
    rw [show joinLines [l] = l from rfl, splitLines_no_newline l (hl l (by simp))]
  | l :: l' :: ls, _, hl => by
    rw [show joinLines (l :: l' :: ls) = l ++ '\n' :: joinLines (l' :: ls) from rfl]
    rw [splitLines_append_newline l _ (hl l (by simp))]
    rw [splitLines_joinLines (l' :: ls) (by simp)
      (fun x hx => hl x (List.mem_cons_of_mem l hx))]

/-- The six structural lines of the short-line counterexample content. -/
def sixBadLines : List PyStr :=
  [pystr "import a", pystr "import b", pystr "import c", pystr "class A",
   pystr "def a", pystr "def b"]

/-- 406 lines: six short structural lines and 400 keyword-free filler lines,
totalling 5000 bytes once joined. -/
def C6badLines : List PyStr :=
  sixBadLines ++
    (List.replicate 246 (List.replicate 11 'x') ++
      List.replicate 154 (List.replicate 12 'x'))

/-- The 5000-byte counterexample content. -/
def C6bad : PyStr := joinLines C6badLines

/-- C6 counterexample: a 5000-byte `.py` content with exactly 3 `import`
lines, 1 `class` line, 2 `def` lines and 400 keyword-free filler lines, whose
six structural lines are short.  The joined structural lines fall below the
100-byte `MIN_EXTRACTED_CONTENT` floor, so the extractor discards them and
falls back to the first 3000 raw bytes plus a truncation marker — not the six
structural lines plus the trailing marker the claim promises. -/
theorem large_extraction_cex :
    C6bad.length = 5000 ∧
    (splitLines C6bad).length = 406 ∧
    ((splitLines C6bad).countP fun l =>
      (pystr "import ").isPrefixOf (pyStrip l)) = 3 ∧
    ((splitLines C6bad).countP fun l =>
      (pystr "class ").isPrefixOf (pyStrip l)) = 1 ∧
    ((splitLines C6bad).countP fun l =>
      (pystr "def ").isPrefixOf (pyStrip l)) = 2 ∧
    ((splitLines C6bad).countP fun l => !pyKeep l) = 400 ∧
    _extract_code_structure C6bad (pystr ".py") =
      C6bad.take 3000 ++ pystr "\n... (truncated for brevity)" ∧
    _extract_code_structure C6bad (pystr ".py") ≠
      joinLines ((splitLines C6bad).filter pyKeep) ++
        pystr "\n... (full implementation details omitted for brevity)" := by
  have hnl : ∀ l ∈ C6badLines, '\n' ∉ l := by
    intro l hl
    simp only [C6badLines, sixBadLines, List.mem_append, List.mem_cons,
      List.not_mem_nil, or_false, List.mem_replicate] at hl
    rcases hl with (rfl|rfl|rfl|rfl|rfl|rfl)|⟨-,rfl⟩|⟨-,rfl⟩ <;> decide
  have hsplit : splitLines C6bad = C6badLines :=
    splitLines_joinLines _ (by unfold C6badLines sixBadLines; exact List.cons_ne_nil _ _) hnl
  have hsum : (C6badLines.map List.length).sum = 4595 := by
    simp only [C6badLines, List.map_append, List.sum_append, List.map_replicate,
      List.sum_replicate, smul_eq_mul, List.length_replicate]
    decide
  have hlines : C6badLines.length = 406 := by
    simp only [C6badLines, List.length_append, List.length_replicate]
    decide
  have hlen : C6bad.length = 5000 := by
    have h := length_joinLines C6badLines
      (by unfold C6badLines sixBadLines; exact List.cons_ne_nil _ _)
    rw [hsum, hlines] at h
    unfold C6bad
    omega
  have hfilter : (splitLines C6bad).filter pyKeep = sixBadLines := by
    rw [hsplit]
    rw [show C6badLines = sixBadLines ++ (List.replicate 246 (List.replicate 11 'x') ++
      List.replicate 154 (List.replicate 12 'x')) from rfl]
    rw [List.filter_append, List.filter_append]
    rw [List.filter_replicate_of_neg (by decide), List.filter_replicate_of_neg (by decide)]
    simp
    decide
  have hout : _extract_code_structure C6bad (pystr ".py") =
      C6bad.take 3000 ++ pystr "\n... (truncated for brevity)" := by
    have h1 : ¬ C6bad.length < CODE_STRUCTURE_EXTRACTION_THRESHOLD := by
      rw [hlen, CODE_STRUCTURE_EXTRACTION_THRESHOLD]; omega
    simp only [_extract_code_structure, finishExtraction]
    rw [if_neg h1, hfilter]
    rw [if_neg (show ¬ sixBadLines.isEmpty = true by decide)]
    rw [if_pos (show (joinLines sixBadLines).length < MIN_EXTRACTED_CONTENT by decide)]
    simp [CODE_STRUCTURE_EXTRACTION_THRESHOLD]
  refine ⟨hlen, by rw [hsplit, hlines], ?_, ?_, ?_, ?_, hout, ?_⟩
  · rw [hsplit]
    simp only [C6badLines, List.countP_append, List.countP_replicate]
    decide
  · rw [hsplit]
    simp only [C6badLines, List.countP_append, List.countP_replicate]
    decide
  · rw [hsplit]
    simp only [C6badLines, List.countP_append, List.countP_replicate]
    decide
  · rw [hsplit]
    simp only [C6badLines, List.countP_append, List.countP_replicate]
    decide
  · intro heq
    have hlens := congrArg List.length heq
    rw [hout, hfilter] at hlens
    rw [List.length_append, List.length_append, List.length_take, hlen] at hlens
    have hm1 : (pystr "\n... (truncated for brevity)").length = 28 := by decide
    have hm2 : (joinLines sixBadLines).length = 46 := by decide
    have hm3 :
        (pystr "\n... (full implementation details omitted for brevity)").length = 54 := by
      decide
    rw [hm1, hm2, hm3] at hlens
    omega

/-- Six long structural lines (28 bytes each) for the witness content. -/
def sixWLines : List PyStr :=
  [pystr "import " ++ List.replicate 21 'a', pystr "import " ++ List.replicate 21 'b',
   pystr "import " ++ List.replicate 21 'c', pystr "class " ++ List.replicate 22 'A',
   pystr "def " ++ List.replicate 24 'd', pystr "def " ++ List.replicate 24 'e']

/-- 406 lines: six long structural lines and 400 keyword-free filler lines,
totalling 5000 bytes once joined. -/
def C6wLines : List PyStr :=
  sixWLines ++
    (List.replicate 27 (List.replicate 12 'x') ++
      List.replicate 373 (List.replicate 11 'x'))

/-- The 5000-byte witness content whose kept lines clear the 100-byte floor. -/
def C6w : PyStr := joinLines C6wLines

/-- The witness content satisfies the hypotheses of the amended C6 claim. -/
theorem C6w_facts : C6w.length = 5000 ∧ (splitLines C6w).length = 406 ∧
    ((splitLines C6w).filter pyKeep).length = 6 ∧
    100 ≤ (joinLines ((splitLines C6w).filter pyKeep)).length := by
  have hnl : ∀ l ∈ C6wLines, '\n' ∉ l := by
    intro l hl
    simp only [C6wLines, sixWLines, List.mem_append, List.mem_cons,
      List.not_mem_nil, or_false, List.mem_replicate] at hl
    rcases hl with (rfl|rfl|rfl|rfl|rfl|rfl)|⟨-,rfl⟩|⟨-,rfl⟩ <;> decide
  have hsplit : splitLines C6w = C6wLines :=
    splitLines_joinLines _ (by unfold C6wLines sixWLines; exact List.cons_ne_nil _ _) hnl
  have hsum : (C6wLines.map List.length).sum = 4595 := by
    simp only [C6wLines, List.map_append, List.sum_append, List.map_replicate,
      List.sum_replicate, smul_eq_mul, List.length_replicate]
    decide
  have hlines : C6wLines.length = 406 := by
    simp only [C6wLines, List.length_append, List.length_replicate]
    decide
  have hlen : C6w.length = 5000 := by
    have h := length_joinLines C6wLines
      (by unfold C6wLines sixWLines; exact List.cons_ne_nil _ _)
    rw [hsum, hlines] at h
    unfold C6w
    omega
  have hfilter : (splitLines C6w).filter pyKeep = sixWLines := by
    rw [hsplit]
    rw [show C6wLines = sixWLines ++ (List.replicate 27 (List.replicate 12 'x') ++
      List.replicate 373 (List.replicate 11 'x')) from rfl]
    rw [List.filter_append, List.filter_append]
    rw [List.filter_replicate_of_neg (by decide), List.filter_replicate_of_neg (by decide)]
    simp
    decide
  have hwsum : (sixWLines.map List.length).sum = 168 := by
    simp only [sixWLines, List.map_cons, List.map_nil, List.length_append,
      List.length_replicate, List.sum_cons, List.sum_nil]
    decide
  have hw := length_joinLines sixWLines (by unfold sixWLines; exact List.cons_ne_nil _ _)
  rw [hwsum] at hw
  refine ⟨hlen, by rw [hsplit, hlines], by rw [hfilter]; decide, ?_⟩
  rw [hfilter]
  omega

/-- Witness for `large_extraction_amended` at the concrete 5000-byte content
whose kept structural lines join to 173 bytes. -/
theorem large_extraction_amended_witness :
    (C6w.length = 5000 ∧ (splitLines C6w).length = 406 ∧
      ((splitLines C6w).filter pyKeep).length = 6 ∧
      100 ≤ (joinLines ((splitLines C6w).filter pyKeep)).length) ∧
    (_extract_code_structure C6w (pystr ".py") =
      joinLines ((splitLines C6w).filter pyKeep) ++
        pystr "\n... (full implementation details omitted for brevity)" ∧
    (_extract_code_structure C6w (pystr ".py")).length < C6w.length) :=
  ⟨C6w_facts,
   large_extraction_amended C6w C6w_facts.1 C6w_facts.2.1 C6w_facts.2.2.1 C6w_facts.2.2.2⟩
